import Mathlib

/-!
Shallow embedding of the RealTimeCanvas collaborative-canvas server
(the session-synchronization engine in `src/unnamed/part_001`).

JavaScript `Map`s are modelled as association lists in insertion order
(a JS `Map` has unique keys; `mapSet` overwrites in place, a key absent
from the map is appended at the end, `mapDelete` removes the key).
JS truthiness of a `strokeId` string (`strokeId || null`) is modelled by
`normId`: `null` and the empty string collapse to `none`.
Timestamps (`Date.now()`) are passed in explicitly as naturals.
Socket emissions are modelled as a list of `Emit` values returned by each
handler alongside the new registry state.
-/

namespace Canvas

/-- One participant inside a room (`addUserToRoom` in the source). -/
structure User where
  id : String
  name : String
  color : String
  x : Int
  y : Int
deriving DecidableEq, Repr

/-- One stored drawing event, as pushed onto `room.drawingHistory` by the
`draw` and `draw-line` handlers. -/
structure Stroke where
  fromX : Int
  fromY : Int
  toX : Int
  toY : Int
  color : String
  width : Nat
  tool : String
  userId : String
  strokeId : Option String
  timestamp : Nat
deriving DecidableEq, Repr

/-- The client payload of a `draw` / `draw-line` message. -/
structure DrawData where
  fromX : Int
  fromY : Int
  toX : Int
  toY : Int
  color : String
  width : Nat
  tool : String
  strokeId : Option String
deriving DecidableEq, Repr

/-- The client payload of a `join-room` message. -/
structure JoinData where
  roomId : String
  roomName : String
  userName : String
  userColor : String
  capacity : Nat
  isHost : Bool
deriving DecidableEq, Repr

/-- One room's state (`rooms.set(roomId, {...})` in `createRoom`). -/
structure Room where
  roomId : String
  roomName : String
  capacity : Nat
  users : List (String × User)
  drawingHistory : List Stroke
  userRedoStacks : List (String × List (List Stroke))
  createdAt : Nat
deriving DecidableEq, Repr

/-- The process-wide room registry (`const rooms = new Map()`). -/
abbrev Rooms := List (String × Room)

/-- Delivery target of an emitted message: `socket.emit` (sender only),
`socket.to(room).emit` (room except sender), `io.to(room).emit` (whole room). -/
inductive Target where
  | sender : Target
  | roomExceptSender : String → Target
  | wholeRoom : String → Target
deriving DecidableEq, Repr

/-- Outbound message payloads relevant to the verified behaviour. -/
inductive Msg where
  | roomError : String → Msg
  | usersList : List User → Msg
  | userJoined : String → List User → Msg
  | drawingHistory : List Stroke → Msg
  | fullHistoryUpdate : List Stroke → Msg
  | drawMsg : String → DrawData → Msg
  | drawLineMsg : String → DrawData → Msg
  | userLeft : String → List User → Msg
deriving DecidableEq, Repr

/-- One emitted message with its delivery target. -/
abbrev Emit := Target × Msg

/-- `Map.get`: first (unique) binding of the key. -/
def mapGet (m : List (String × α)) (k : String) : Option α :=
  match m with
  | [] => none
  | (k', v) :: rest => if k' == k then some v else mapGet rest k

/-- `Map.set`: overwrite an existing binding in place, else append at the end. -/
def mapSet (m : List (String × α)) (k : String) (v : α) : List (String × α) :=
  match m with
  | [] => [(k, v)]
  | (k', v') :: rest => if k' == k then (k, v) :: rest else (k', v') :: mapSet rest k v

/-- `Map.delete`: remove the binding of the key (keys are unique in a JS Map). -/
def mapDelete (m : List (String × α)) (k : String) : List (String × α) :=
  match m with
  | [] => []
  | (k', v) :: rest => if k' == k then mapDelete rest k else (k', v) :: mapDelete rest k

/-- JS `x || null` applied to a nullable string: `null` and `""` (the only
falsy string) collapse to `none`. -/
def normId : Option String → Option String
  | none => none
  | some s => if s == "" then none else some s

/-- The history entry built by the `draw` / `draw-line` handlers
(`{...data, userId: socket.id, strokeId: data.strokeId || null, timestamp}`). -/
def mkStroke (d : DrawData) (sid : String) (now : Nat) : Stroke :=
  ⟨d.fromX, d.fromY, d.toX, d.toY, d.color, d.width, d.tool, sid, normId d.strokeId, now⟩

/-- The backward scan `for (let i = len-1; i >= 0; i--) ... if (userId === sid) break`:
the last history entry authored by `sid`. -/
def lastBy (hist : List Stroke) (sid : String) : Option Stroke :=
  hist.reverse.find? (fun s => s.userId == sid)

/-- Remove the first element satisfying `p` (used on the reversed log to model
the backward `splice(i, 1)` of the undo fallback path). -/
def removeFirstBy (p : α → Bool) : List α → List α
  | [] => []
  | x :: rest => if p x then rest else x :: removeFirstBy p rest

/-- Remove the last history entry authored by `sid` (the undo fallback path's
backward scan-and-splice). -/
def removeLastBy (hist : List Stroke) (sid : String) : List Stroke :=
  (removeFirstBy (fun s => s.userId == sid) hist.reverse).reverse

/-- The backward removal loop of the undo group path: returns the remaining
log and the removed entries in their original relative order (the loop
iterates from the end, splicing each match and `unshift`-ing it onto the
removed group). -/
def removeMatching (p : α → Bool) : List α → List α × List α
  | [] => ([], [])
  | x :: rest =>
      let (kept, removed) := removeMatching p rest
      if p x then (kept, x :: removed) else (x :: kept, removed)

/-- Push a removed group onto an author's redo stack
(`if (!has) set([]); get().push({strokes: group})`). -/
def pushRedo (stks : List (String × List (List Stroke))) (sid : String)
    (group : List Stroke) : List (String × List (List Stroke)) :=
  match mapGet stks sid with
  | none => mapSet stks sid [group]
  | some st => mapSet stks sid (st ++ [group])

/-- `getRoomUsers`: the room's participants in insertion order. -/
def getRoomUsers (rooms : Rooms) (rid : String) : List User :=
  match mapGet rooms rid with
  | some room => room.users.map (fun kv => kv.2)
  | none => []

/-- `createRoom(roomId, roomName, capacity)`: no-op when the id is present,
otherwise install an empty room. -/
def createRoom (rooms : Rooms) (rid rname : String) (cap : Nat) (now : Nat) : Rooms :=
  if (mapGet rooms rid).isSome then rooms
  else mapSet rooms rid ⟨rid, rname, cap, [], [], [], now⟩

/-- `addUserToRoom(roomId, userId, userName, userColor)`: insert the user when
the room exists and is under capacity. -/
def addUserToRoom (rooms : Rooms) (rid uid uname ucolor : String) : Rooms :=
  match mapGet rooms rid with
  | some room =>
      if room.users.length < room.capacity then
        mapSet rooms rid { room with users := mapSet room.users uid ⟨uid, uname, ucolor, 0, 0⟩ }
      else rooms
  | none => rooms

/-- `removeUserFromRoom(roomId, userId)`: delete the user if present, then
delete the room when it has become empty. -/
def removeUserFromRoom (rooms : Rooms) (rid uid : String) : Rooms :=
  match mapGet rooms rid with
  | none => rooms
  | some room =>
      let users' := if (mapGet room.users uid).isSome then mapDelete room.users uid
                    else room.users
      if users'.length == 0 then mapDelete rooms rid
      else mapSet rooms rid { room with users := users' }

/-- The `join-room` handler. Returns the new registry, the socket's room
binding (`socket.roomId`; unchanged on failure), and the emitted messages. -/
def joinHandler (rooms : Rooms) (sid : String) (srid : Option String)
    (d : JoinData) (now : Nat) : Rooms × Option String × List Emit :=
  let rooms1 := if d.isHost then createRoom rooms d.roomId d.roomName d.capacity now else rooms
  match mapGet rooms1 d.roomId with
  | none => (rooms1, srid, [(Target.sender, Msg.roomError "ERROR: Room not found")])
  | some room =>
      if room.capacity ≤ room.users.length then
        (rooms1, srid, [(Target.sender, Msg.roomError "ERROR: Room is full")])
      else
        let rooms2 := addUserToRoom rooms1 d.roomId sid d.userName d.userColor
        let users := getRoomUsers rooms2 d.roomId
        (rooms2, some d.roomId,
          [(Target.sender, Msg.usersList users),
           (Target.roomExceptSender d.roomId, Msg.userJoined sid users)]
          ++ (if room.drawingHistory.length > 0 then
                [(Target.sender, Msg.drawingHistory room.drawingHistory)] else []))

/-- The `draw` handler: brush/eraser segments are appended to the history,
the author's redo stack is dropped, and the log is trimmed from the front
when it exceeds 1000 entries; the segment is rebroadcast to the rest of
the room either way. -/
def drawHandler (rooms : Rooms) (sid : String) (srid : Option String)
    (d : DrawData) (now : Nat) : Rooms × List Emit :=
  match srid with
  | none => (rooms, [])
  | some rid =>
      let rooms' :=
        if d.tool == "brush" || d.tool == "eraser" then
          match mapGet rooms rid with
          | some room =>
              let hist1 := room.drawingHistory ++ [mkStroke d sid now]
              let hist2 := if hist1.length > 1000 then hist1.tail else hist1
              mapSet rooms rid { room with
                drawingHistory := hist2,
                userRedoStacks := mapDelete room.userRedoStacks sid }
          | none => rooms
        else rooms
      (rooms', [(Target.roomExceptSender rid, Msg.drawMsg sid d)])

/-- The `draw-line` handler: the shape is appended unconditionally and the
author's redo stack dropped; no size cap is applied. -/
def drawLineHandler (rooms : Rooms) (sid : String) (srid : Option String)
    (d : DrawData) (now : Nat) : Rooms × List Emit :=
  match srid with
  | none => (rooms, [])
  | some rid =>
      let rooms' :=
        match mapGet rooms rid with
        | some room =>
            mapSet rooms rid { room with
              drawingHistory := room.drawingHistory ++ [mkStroke d sid now],
              userRedoStacks := mapDelete room.userRedoStacks sid }
        | none => rooms
      (rooms', [(Target.roomExceptSender rid, Msg.drawLineMsg sid d)])

/-- The `clear-canvas` handler: history and all redo stacks reset, empty
history broadcast to the whole room. -/
def clearHandler (rooms : Rooms) (srid : Option String) : Rooms × List Emit :=
  match srid with
  | none => (rooms, [])
  | some rid =>
      match mapGet rooms rid with
      | some room =>
          (mapSet rooms rid { room with drawingHistory := [], userRedoStacks := [] },
           [(Target.wholeRoom rid, Msg.fullHistoryUpdate [])])
      | none => (rooms, [])

/-- The `undo` handler: find the calling author's last entry; with a truthy
`strokeId` remove every entry of that author carrying the same id (the
group path), otherwise remove just that last entry (the fallback path);
push the removed entries on the author's redo stack and broadcast the
resulting log to the whole room. A removal that finds nothing is silent. -/
def undoHandler (rooms : Rooms) (sid : String) (srid : Option String) :
    Rooms × List Emit :=
  match srid with
  | none => (rooms, [])
  | some rid =>
      match mapGet rooms rid with
      | none => (rooms, [])
      | some room =>
          match (lastBy room.drawingHistory sid).bind (fun e => normId e.strokeId) with
          | none =>
              match lastBy room.drawingHistory sid with
              | none => (rooms, [])
              | some removed =>
                  let hist' := removeLastBy room.drawingHistory sid
                  let room' := { room with
                    drawingHistory := hist',
                    userRedoStacks := pushRedo room.userRedoStacks sid [removed] }
                  (mapSet rooms rid room',
                   [(Target.wholeRoom rid, Msg.fullHistoryUpdate hist')])
          | some g =>
              let kr := removeMatching
                (fun s => s.userId == sid && s.strokeId == some g) room.drawingHistory
              if kr.2.length > 0 then
                let room' := { room with
                  drawingHistory := kr.1,
                  userRedoStacks := pushRedo room.userRedoStacks sid kr.2 }
                (mapSet rooms rid room',
                 [(Target.wholeRoom rid, Msg.fullHistoryUpdate kr.1)])
              else (rooms, [])

/-- The `redo` handler: pop the author's most recent redo group and append
its strokes onto the end of the log, broadcasting the result; an absent or
empty stack is a silent no-op. -/
def redoHandler (rooms : Rooms) (sid : String) (srid : Option String) :
    Rooms × List Emit :=
  match srid with
  | none => (rooms, [])
  | some rid =>
      match mapGet rooms rid with
      | none => (rooms, [])
      | some room =>
          match mapGet room.userRedoStacks sid with
          | none => (rooms, [])
          | some st =>
              match st.getLast? with
              | none => (rooms, [])
              | some group =>
                  if group.length > 0 then
                    let hist' := room.drawingHistory ++ group
                    (mapSet rooms rid { room with
                       drawingHistory := hist',
                       userRedoStacks := mapSet room.userRedoStacks sid st.dropLast },
                     [(Target.wholeRoom rid, Msg.fullHistoryUpdate hist')])
                  else
                    (mapSet rooms rid { room with
                       userRedoStacks := mapSet room.userRedoStacks sid st.dropLast },
                     [])

/-- The `disconnect` handler: leave the room and notify the residual users. -/
def disconnectHandler (rooms : Rooms) (sid : String) (srid : Option String) :
    Rooms × List Emit :=
  match srid with
  | none => (rooms, [])
  | some rid =>
      let rooms' := removeUserFromRoom rooms rid sid
      (rooms', [(Target.wholeRoom rid, Msg.userLeft sid (getRoomUsers rooms' rid))])

/-- Looking up a key just written by `mapSet` yields the written value. -/
theorem mapGet_mapSet_self (m : List (String × α)) (k : String) (v : α) :
    mapGet (mapSet m k v) k = some v := by
  induction m with
  | nil => simp [mapGet, mapSet]
  | cons kv rest ih =>
      obtain ⟨k', v'⟩ := kv
      by_cases h : k' = k
      · simp [mapGet, mapSet, h]
      · simp [mapGet, mapSet, h, ih]

/-- Looking up a key just removed by `mapDelete` yields nothing. -/
theorem mapGet_mapDelete_self (m : List (String × α)) (k : String) :
    mapGet (mapDelete m k) k = none := by
  induction m with
  | nil => simp [mapGet, mapDelete]
  | cons kv rest ih =>
      obtain ⟨k', v'⟩ := kv
      by_cases h : k' = k
      · simp [mapDelete, h, ih]
      · simp [mapDelete, mapGet, h, ih]

/-- The backward removal loop keeps exactly the non-matching entries and
removes exactly the matching ones, both in their original order. -/
theorem removeMatching_eq_filter (p : α → Bool) (l : List α) :
    removeMatching p l = (l.filter (fun a => !p a), l.filter p) := by
  induction l with
  | nil => rfl
  | cons x rest ih =>
      by_cases h : p x
      · simp [removeMatching, ih, List.filter_cons, h]
      · simp [removeMatching, ih, List.filter_cons, h]

/-- Splitting a list at the first element found by `find?`; `removeFirstBy`
drops exactly that element. -/
theorem find?_split (p : α → Bool) (l : List α) (e : α) (h : l.find? p = some e) :
    ∃ l1 l2, l = l1 ++ e :: l2 ∧ (∀ x ∈ l1, p x = false) ∧
      removeFirstBy p l = l1 ++ l2 := by
  induction l with
  | nil => simp [List.find?] at h
  | cons x rest ih =>
      by_cases hx : p x
      · have hxe : x = e := by
          have := h
          rw [List.find?_cons_of_pos _ hx] at this
          exact Option.some.inj this
        subst hxe
        exact ⟨[], rest, by simp, by simp, by simp [removeFirstBy, hx]⟩
      · have h' : rest.find? p = some e := by
          have := h
          rwa [List.find?_cons_of_neg _ (by simpa using hx)] at this
        obtain ⟨l1, l2, hl, hall, hrem⟩ := ih h'
        refine ⟨x :: l1, l2, by simp [hl], ?_, ?_⟩
        · intro y hy
          rcases List.mem_cons.mp hy with hy | hy
          · subst hy; simpa using hx
          · exact hall y hy
        · simp [removeFirstBy, hx, hrem]

/-- Splitting the history at the last entry authored by `sid`: nothing after
it is authored by `sid`, and the fallback removal drops exactly it. -/
theorem lastBy_split (hist : List Stroke) (sid : String) (e : Stroke)
    (h : lastBy hist sid = some e) :
    ∃ l1 l2, hist = l1 ++ e :: l2 ∧ (∀ x ∈ l2, (x.userId == sid) = false) ∧
      removeLastBy hist sid = l1 ++ l2 := by
  obtain ⟨a, b, hl, hall, hrem⟩ := find?_split _ _ _ h
  refine ⟨b.reverse, a.reverse, ?_, ?_, ?_⟩
  · have h2 : hist = (a ++ e :: b).reverse := by rw [← hl, List.reverse_reverse]
    rw [h2]; simp
  · intro x hx
    exact hall x (List.mem_reverse.mp hx)
  · rw [removeLastBy, hrem]; simp

/-- The entry found by `lastBy` is in the history and authored by `sid`. -/
theorem lastBy_mem (hist : List Stroke) (sid : String) (e : Stroke)
    (h : lastBy hist sid = some e) : e ∈ hist ∧ (e.userId == sid) = true := by
  rw [lastBy] at h
  have hp := List.find?_some h
  exact ⟨List.mem_reverse.mp (List.mem_of_find?_eq_some h), by simpa using hp⟩

/-- `pushRedo` appends the group at the end of the author's stack
(empty when the author had none). -/
theorem mapGet_pushRedo_self (stks : List (String × List (List Stroke)))
    (sid : String) (group : List Stroke) :
    mapGet (pushRedo stks sid group) sid =
      some ((mapGet stks sid).getD [] ++ [group]) := by
  unfold pushRedo
  cases h : mapGet stks sid with
  | none => simp [mapGet_mapSet_self]
  | some st => simp [mapGet_mapSet_self]

/-- A truthy normalized id pins down the raw id. -/
theorem normId_eq_some (o : Option String) (g : String) (h : normId o = some g) :
    o = some g := by
  cases o with
  | none => simp [normId] at h
  | some s =>
      by_cases hs : s = ""
      · subst hs; simp [normId] at h
      · rw [normId] at h
        rw [if_neg (by simpa using hs)] at h
        exact h

/-- `createRoom` is a no-op on an id already present in the registry. -/
theorem createRoom_of_some (rooms : Rooms) (rid rname : String) (cap now : Nat)
    (room : Room) (h : mapGet rooms rid = some room) :
    createRoom rooms rid rname cap now = rooms := by
  rw [createRoom, if_pos (by simp [h])]

/-- A join targeting an existing room at capacity returns the unchanged
registry and binding together with the room-full error alone. -/
theorem joinHandler_full (rooms : Rooms) (sid : String) (srid : Option String)
    (d : JoinData) (now : Nat) (room : Room)
    (hroom : mapGet rooms d.roomId = some room)
    (hfull : room.capacity ≤ room.users.length) :
    joinHandler rooms sid srid d now =
      (rooms, srid, [(Target.sender, Msg.roomError "ERROR: Room is full")]) := by
  have h1 : (if d.isHost then createRoom rooms d.roomId d.roomName d.capacity now
             else rooms) = rooms := by
    cases d.isHost with
    | false => rfl
    | true => simp [createRoom_of_some rooms d.roomId d.roomName d.capacity now room hroom]
  rw [joinHandler]
  simp only [h1, hroom]
  rw [if_pos hfull]

/-- A sample participant. -/
def uA : User := ⟨"A", "Alice", "red", 0, 0⟩

/-- A sample brush stroke by author A in group g1. -/
def eA : Stroke := ⟨0, 0, 1, 1, "black", 2, "brush", "A", some "g1", 0⟩

/-- A room holding one participant and one stroke. -/
def roomW : Room := ⟨"r", "Room", 2, [("A", uA)], [eA], [], 0⟩

/-- A registry holding `roomW`. -/
def roomsW : Rooms := [("r", roomW)]

/-- A room holding one participant and an empty history. -/
def roomE : Room := ⟨"r", "Room", 2, [("A", uA)], [], [], 0⟩

/-- A registry holding `roomE`. -/
def roomsE : Rooms := [("r", roomE)]

/-- A room at capacity: capacity 1, one participant. -/
def roomF : Room := ⟨"r", "Room", 1, [("A", uA)], [], [], 0⟩

/-- A registry holding `roomF`. -/
def roomsF : Rooms := [("r", roomF)]

/-- A sample brush segment payload. -/
def dBrush : DrawData := ⟨0, 0, 1, 1, "black", 2, "brush", some "g1"⟩

/-- A sample shape payload. -/
def dLine : DrawData := ⟨0, 0, 1, 1, "black", 2, "line", some "g2"⟩

/-- A sample non-host join payload. -/
def dJoin : JoinData := ⟨"r", "Room", "Bob", "blue", 2, false⟩

/-- A sample host join payload. -/
def dJoinHost : JoinData := ⟨"r", "Room", "Bob", "blue", 5, true⟩

/-- Author B's stroke, interleaved between A's two g1 strokes. -/
def eB : Stroke := ⟨5, 5, 6, 6, "blue", 3, "brush", "B", some "h1", 1⟩

/-- A's second stroke in group g1. -/
def eA2 : Stroke := ⟨1, 1, 2, 2, "black", 2, "brush", "A", some "g1", 2⟩

/-- A room with the interleaved log A(g1), B(h1), A(g1). -/
def roomC1 : Room := ⟨"r", "Room", 2, [("A", uA)], [eA, eB, eA2], [], 0⟩

/-- A registry holding `roomC1`. -/
def roomsC1 : Rooms := [("r", roomC1)]

/-- A legacy (ungrouped) stroke by A. -/
def eLegacy : Stroke := ⟨3, 3, 4, 4, "black", 2, "brush", "A", none, 3⟩

/-- A room whose log ends in A's ungrouped stroke: A(g1), B(h1), A(null). -/
def roomC8 : Room := ⟨"r", "Room", 2, [("A", uA)], [eA, eB, eLegacy], [], 0⟩

/-- A registry holding `roomC8`. -/
def roomsC8 : Rooms := [("r", roomC8)]

/-- Claim C9: `createRoom(roomId, name, capacity)` is idempotent — calling it
when `roomId` is already present is a no-op, leaving the registry (hence the
existing room's name, capacity, participant set, history log and redo
stacks) unchanged. -/
theorem claim_C9_createRoom_idempotent (rooms : Rooms) (rid rname : String)
    (cap now : Nat) (room : Room) (h : mapGet rooms rid = some room) :
    createRoom rooms rid rname cap now = rooms ∧
    mapGet (createRoom rooms rid rname cap now) rid = some room := by
  have h1 := createRoom_of_some rooms rid rname cap now room h
  exact ⟨h1, by rw [h1, h]⟩

/-- Witness for C9 at a concrete registry: re-creating room "r" with a
different name and capacity changes nothing. -/
theorem claim_C9_witness :
    mapGet roomsW "r" = some roomW ∧
    (createRoom roomsW "r" "Other" 9 7 = roomsW ∧
     mapGet (createRoom roomsW "r" "Other" 9 7) "r" = some roomW) :=
  ⟨by decide, claim_C9_createRoom_idempotent roomsW "r" "Other" 9 7 roomW (by decide)⟩

/-- Claim C7: a join targeting an existing room at capacity yields exactly the
room-full error to the sender, with registry and the joiner's room binding
unchanged; and removing the last participant of a room destroys it, so a
subsequent lookup of that roomId returns not-found. -/
theorem claim_C7_room_full_and_teardown :
    (∀ (rooms : Rooms) (sid : String) (srid : Option String) (d : JoinData)
       (now : Nat) (room : Room),
       mapGet rooms d.roomId = some room →
       room.capacity ≤ room.users.length →
       joinHandler rooms sid srid d now =
         (rooms, srid, [(Target.sender, Msg.roomError "ERROR: Room is full")])) ∧
    (∀ (rooms : Rooms) (rid uid : String) (room : Room) (u : User),
       mapGet rooms rid = some room →
       room.users = [(uid, u)] →
       mapGet (removeUserFromRoom rooms rid uid) rid = none) := by
  constructor
  · exact fun rooms sid srid d now room h1 h2 =>
      joinHandler_full rooms sid srid d now room h1 h2
  · intro rooms rid uid room u h1 h2
    rw [removeUserFromRoom]
    simp only [h1, h2]
    simp [mapGet, mapDelete, mapGet_mapDelete_self]

/-- Witness for C7: the (C+1)-th join to the full capacity-1 room `roomF` is
rejected without mutation, and removing its only participant destroys it. -/
theorem claim_C7_witness :
    (mapGet roomsF dJoin.roomId = some roomF ∧
     roomF.capacity ≤ roomF.users.length ∧
     joinHandler roomsF "B" none dJoin 3 =
       (roomsF, none, [(Target.sender, Msg.roomError "ERROR: Room is full")])) ∧
    (mapGet roomsF "r" = some roomF ∧ roomF.users = [("A", uA)] ∧
     mapGet (removeUserFromRoom roomsF "r" "A") "r" = none) :=
  ⟨⟨by decide, by decide,
    claim_C7_room_full_and_teardown.1 roomsF "B" none dJoin 3 roomF
      (by decide) (by decide)⟩,
   ⟨by decide, by decide,
    claim_C7_room_full_and_teardown.2 roomsF "r" "A" roomF uA
      (by decide) (by decide)⟩⟩

/-- Claim C10: a host join (`isHost = true`) targeting an existing room at
capacity is still rejected with the room-full error and mutates nothing —
the flag never bypasses the capacity check or alters the existing room. -/
theorem claim_C10_host_join_full_rejected (rooms : Rooms) (sid : String)
    (srid : Option String) (d : JoinData) (now : Nat) (room : Room)
    (_hhost : d.isHost = true)
    (hroom : mapGet rooms d.roomId = some room)
    (hfull : room.capacity ≤ room.users.length) :
    joinHandler rooms sid srid d now =
      (rooms, srid, [(Target.sender, Msg.roomError "ERROR: Room is full")]) ∧
    mapGet (joinHandler rooms sid srid d now).1 d.roomId = some room := by
  have h1 := joinHandler_full rooms sid srid d now room hroom hfull
  exact ⟨h1, by rw [h1]; exact hroom⟩

/-- Witness for C10: a host join with capacity 5 to the full room `roomF`
(capacity 1) is rejected and leaves the room untouched. -/
theorem claim_C10_witness :
    dJoinHost.isHost = true ∧
    mapGet roomsF dJoinHost.roomId = some roomF ∧
    roomF.capacity ≤ roomF.users.length ∧
    (joinHandler roomsF "B" none dJoinHost 3 =
       (roomsF, none, [(Target.sender, Msg.roomError "ERROR: Room is full")]) ∧
     mapGet (joinHandler roomsF "B" none dJoinHost 3).1 dJoinHost.roomId = some roomF) :=
  ⟨by decide, by decide, by decide,
   claim_C10_host_join_full_rejected roomsF "B" none dJoinHost 3 roomF
     (by decide) (by decide) (by decide)⟩

/-- Claim C4: `clear-canvas` empties the history log and every author's redo
stack in one step, broadcasts the empty history to the whole room (sender
included), and a subsequent redo by any author is a silent no-op. -/
theorem claim_C4_clear_room_wide (rooms : Rooms) (rid : String) (room : Room)
    (hroom : mapGet rooms rid = some room) :
    ∃ room', mapGet (clearHandler rooms (some rid)).1 rid = some room' ∧
      room'.drawingHistory = [] ∧ room'.userRedoStacks = [] ∧
      (clearHandler rooms (some rid)).2 =
        [(Target.wholeRoom rid, Msg.fullHistoryUpdate [])] ∧
      (∀ uid : String,
        redoHandler (clearHandler rooms (some rid)).1 uid (some rid) =
          ((clearHandler rooms (some rid)).1, [])) := by
  refine ⟨{ room with drawingHistory := [], userRedoStacks := [] }, ?_, rfl, rfl, ?_, ?_⟩
  · rw [clearHandler]; simp only [hroom]; exact mapGet_mapSet_self _ _ _
  · rw [clearHandler]; simp only [hroom]
  · intro uid
    rw [clearHandler]; simp only [hroom]
    rw [redoHandler]
    simp [mapGet_mapSet_self, mapGet]

/-- Witness for C4: clearing `roomsW` (one stroke, one author) leaves an
empty room state and makes A's redo a no-op. -/
theorem claim_C4_witness :
    mapGet roomsW "r" = some roomW ∧
    (∃ room', mapGet (clearHandler roomsW (some "r")).1 "r" = some room' ∧
      room'.drawingHistory = [] ∧ room'.userRedoStacks = [] ∧
      (clearHandler roomsW (some "r")).2 =
        [(Target.wholeRoom "r", Msg.fullHistoryUpdate [])] ∧
      (∀ uid : String,
        redoHandler (clearHandler roomsW (some "r")).1 uid (some "r") =
          ((clearHandler roomsW (some "r")).1, []))) :=
  ⟨by decide, claim_C4_clear_room_wide roomsW "r" roomW (by decide)⟩

/-- Claim C5: appending a brush/eraser segment (`draw`) or a shape
(`draw-line`) deletes the appending author's redo stack, so a redo by that
author immediately afterwards is a silent no-op. -/
theorem claim_C5_append_clears_redo :
    (∀ (rooms : Rooms) (rid sid : String) (room : Room) (d : DrawData) (now : Nat),
       mapGet rooms rid = some room →
       (d.tool == "brush" || d.tool == "eraser") = true →
       ∃ room', mapGet (drawHandler rooms sid (some rid) d now).1 rid = some room' ∧
         mapGet room'.userRedoStacks sid = none ∧
         redoHandler (drawHandler rooms sid (some rid) d now).1 sid (some rid) =
           ((drawHandler rooms sid (some rid) d now).1, [])) ∧
    (∀ (rooms : Rooms) (rid sid : String) (room : Room) (d : DrawData) (now : Nat),
       mapGet rooms rid = some room →
       ∃ room', mapGet (drawLineHandler rooms sid (some rid) d now).1 rid = some room' ∧
         mapGet room'.userRedoStacks sid = none ∧
         redoHandler (drawLineHandler rooms sid (some rid) d now).1 sid (some rid) =
           ((drawLineHandler rooms sid (some rid) d now).1, [])) := by
  constructor
  · intro rooms rid sid room d now hroom htool
    have hd : (drawHandler rooms sid (some rid) d now).1 =
        mapSet rooms rid { room with
          drawingHistory :=
            if (room.drawingHistory ++ [mkStroke d sid now]).length > 1000
            then (room.drawingHistory ++ [mkStroke d sid now]).tail
            else room.drawingHistory ++ [mkStroke d sid now],
          userRedoStacks := mapDelete room.userRedoStacks sid } := by
      rw [drawHandler]
      simp only [htool, hroom, if_true]
    rw [hd]
    refine ⟨_, mapGet_mapSet_self _ _ _, mapGet_mapDelete_self _ _, ?_⟩
    rw [redoHandler]
    simp [mapGet_mapSet_self, mapGet_mapDelete_self]
  · intro rooms rid sid room d now hroom
    have hd : (drawLineHandler rooms sid (some rid) d now).1 =
        mapSet rooms rid { room with
          drawingHistory := room.drawingHistory ++ [mkStroke d sid now],
          userRedoStacks := mapDelete room.userRedoStacks sid } := by
      rw [drawLineHandler]
      simp only [hroom]
    rw [hd]
    refine ⟨_, mapGet_mapSet_self _ _ _, mapGet_mapDelete_self _ _, ?_⟩
    rw [redoHandler]
    simp [mapGet_mapSet_self, mapGet_mapDelete_self]

/-- Witness for C5: in `roomsW`, a brush segment and a shape by A each leave
A with no redo stack and make A's redo a no-op. -/
theorem claim_C5_witness :
    (mapGet roomsW "r" = some roomW ∧
     (dBrush.tool == "brush" || dBrush.tool == "eraser") = true ∧
     ∃ room', mapGet (drawHandler roomsW "A" (some "r") dBrush 1).1 "r" = some room' ∧
       mapGet room'.userRedoStacks "A" = none ∧
       redoHandler (drawHandler roomsW "A" (some "r") dBrush 1).1 "A" (some "r") =
         ((drawHandler roomsW "A" (some "r") dBrush 1).1, [])) ∧
    (mapGet roomsW "r" = some roomW ∧
     ∃ room', mapGet (drawLineHandler roomsW "A" (some "r") dLine 1).1 "r" = some room' ∧
       mapGet room'.userRedoStacks "A" = none ∧
       redoHandler (drawLineHandler roomsW "A" (some "r") dLine 1).1 "A" (some "r") =
         ((drawLineHandler roomsW "A" (some "r") dLine 1).1, [])) :=
  ⟨⟨by decide, by decide,
    claim_C5_append_clears_redo.1 roomsW "r" "A" roomW dBrush 1 (by decide) (by decide)⟩,
   ⟨by decide,
    claim_C5_append_clears_redo.2 roomsW "r" "A" roomW dLine 1 (by decide)⟩⟩

/-- Claim C1: when the calling author's most recent log entry carries a
non-null (truthy) strokeGroupId, undo removes exactly the entries matching
both that author and that group id wherever they occur in the log, keeps
all remaining entries — in particular every other author's entries — in
their original order, and pushes the removed entries, in their original
relative order, as a single group onto that author's redo stack. -/
theorem claim_C1_undo_removes_group (rooms : Rooms) (rid sid : String)
    (room : Room) (e : Stroke) (g : String)
    (hroom : mapGet rooms rid = some room)
    (hlast : lastBy room.drawingHistory sid = some e)
    (hg : normId e.strokeId = some g) :
    ∃ room',
      mapGet (undoHandler rooms sid (some rid)).1 rid = some room' ∧
      room'.drawingHistory =
        room.drawingHistory.filter
          (fun s => !(s.userId == sid && s.strokeId == some g)) ∧
      room'.drawingHistory.filter (fun s => !(s.userId == sid)) =
        room.drawingHistory.filter (fun s => !(s.userId == sid)) ∧
      mapGet room'.userRedoStacks sid =
        some ((mapGet room.userRedoStacks sid).getD [] ++
          [room.drawingHistory.filter
            (fun s => s.userId == sid && s.strokeId == some g)]) := by
  have hbind : (lastBy room.drawingHistory sid).bind (fun x => normId x.strokeId)
      = some g := by rw [hlast]; simpa using hg
  obtain ⟨hmem, huid⟩ := lastBy_mem room.drawingHistory sid e hlast
  have heid : e.strokeId = some g := normId_eq_some _ _ hg
  have hp : (fun s => s.userId == sid && s.strokeId == some g) e = true := by
    simp [huid, heid]
  have hpos :
      0 < (room.drawingHistory.filter
        (fun s => s.userId == sid && s.strokeId == some g)).length := by
    have : e ∈ room.drawingHistory.filter
        (fun s => s.userId == sid && s.strokeId == some g) :=
      List.mem_filter.mpr ⟨hmem, hp⟩
    exact List.length_pos.mpr (List.ne_nil_of_mem this)
  rw [undoHandler]
  simp only [hroom, hbind, removeMatching_eq_filter]
  rw [if_pos hpos]
  refine ⟨_, mapGet_mapSet_self _ _ _, rfl, ?_, mapGet_pushRedo_self _ _ _⟩
  rw [List.filter_filter]
  exact List.filter_congr (fun x _ => by cases hx : x.userId == sid <;> simp [hx])

/-- Witness for C1: a three-event interleaved log (A, B, A with group g1);
A's undo removes both of A's g1 entries, keeps B's entry, and pushes the
pair onto A's redo stack. -/
theorem claim_C1_witness :
    mapGet roomsC1 "r" = some roomC1 ∧
    lastBy roomC1.drawingHistory "A" = some eA2 ∧
    normId eA2.strokeId = some "g1" ∧
    (∃ room',
      mapGet (undoHandler roomsC1 "A" (some "r")).1 "r" = some room' ∧
      room'.drawingHistory =
        roomC1.drawingHistory.filter
          (fun s => !(s.userId == "A" && s.strokeId == some "g1")) ∧
      room'.drawingHistory.filter (fun s => !(s.userId == "A")) =
        roomC1.drawingHistory.filter (fun s => !(s.userId == "A")) ∧
      mapGet room'.userRedoStacks "A" =
        some ((mapGet roomC1.userRedoStacks "A").getD [] ++
          [roomC1.drawingHistory.filter
            (fun s => s.userId == "A" && s.strokeId == some "g1")])) :=
  ⟨by decide, by decide, by decide,
   claim_C1_undo_removes_group roomsC1 "r" "A" roomC1 eA2 "g1"
     (by decide) (by decide) (by decide)⟩

/-- Claim C8: when the calling author's most recent entry carries no
strokeGroupId, undo removes only that single entry (nothing by that author
follows it) and pushes it as a singleton group onto the author's redo stack,
broadcasting the shortened log; when the author has no entry at all, undo
changes no state and sends no broadcast. -/
theorem claim_C8_undo_legacy_and_noop :
    (∀ (rooms : Rooms) (rid sid : String) (room : Room) (e : Stroke),
       mapGet rooms rid = some room →
       lastBy room.drawingHistory sid = some e →
       normId e.strokeId = none →
       ∃ room' l1 l2,
         mapGet (undoHandler rooms sid (some rid)).1 rid = some room' ∧
         room.drawingHistory = l1 ++ e :: l2 ∧
         (∀ x ∈ l2, (x.userId == sid) = false) ∧
         room'.drawingHistory = l1 ++ l2 ∧
         mapGet room'.userRedoStacks sid =
           some ((mapGet room.userRedoStacks sid).getD [] ++ [[e]]) ∧
         (undoHandler rooms sid (some rid)).2 =
           [(Target.wholeRoom rid, Msg.fullHistoryUpdate (l1 ++ l2))]) ∧
    (∀ (rooms : Rooms) (rid sid : String) (room : Room),
       mapGet rooms rid = some room →
       lastBy room.drawingHistory sid = none →
       undoHandler rooms sid (some rid) = (rooms, [])) := by
  constructor
  · intro rooms rid sid room e hroom hlast hnorm
    obtain ⟨l1, l2, hsplit, hafter, hrem⟩ := lastBy_split room.drawingHistory sid e hlast
    refine ⟨{ room with
        drawingHistory := removeLastBy room.drawingHistory sid,
        userRedoStacks := pushRedo room.userRedoStacks sid [e] },
      l1, l2, ?_, hsplit, hafter, hrem, mapGet_pushRedo_self _ _ _, ?_⟩
    · rw [undoHandler]
      simp only [hroom, hlast, Option.some_bind, hnorm]
      exact mapGet_mapSet_self _ _ _
    · rw [undoHandler]
      simp only [hroom, hlast, Option.some_bind, hnorm, hrem]
  · intro rooms rid sid room hroom hlast
    rw [undoHandler]
    simp only [hroom, hlast, Option.none_bind]

/-- Witness for C8: in `roomsC8` A's last entry is ungrouped, so A's undo
removes only it; and in `roomsC8` author C has no entries, so C's undo is a
silent no-op. -/
theorem claim_C8_witness :
    (mapGet roomsC8 "r" = some roomC8 ∧
     lastBy roomC8.drawingHistory "A" = some eLegacy ∧
     normId eLegacy.strokeId = none ∧
     ∃ room' l1 l2,
       mapGet (undoHandler roomsC8 "A" (some "r")).1 "r" = some room' ∧
       roomC8.drawingHistory = l1 ++ eLegacy :: l2 ∧
       (∀ x ∈ l2, (x.userId == "A") = false) ∧
       room'.drawingHistory = l1 ++ l2 ∧
       mapGet room'.userRedoStacks "A" =
         some ((mapGet roomC8.userRedoStacks "A").getD [] ++ [[eLegacy]]) ∧
       (undoHandler roomsC8 "A" (some "r")).2 =
         [(Target.wholeRoom "r", Msg.fullHistoryUpdate (l1 ++ l2))]) ∧
    (mapGet roomsC8 "r" = some roomC8 ∧
     lastBy roomC8.drawingHistory "C" = none ∧
     undoHandler roomsC8 "C" (some "r") = (roomsC8, [])) :=
  ⟨⟨by decide, by decide, by decide,
    claim_C8_undo_legacy_and_noop.1 roomsC8 "r" "A" roomC8 eLegacy
      (by decide) (by decide) (by decide)⟩,
   ⟨by decide, by decide,
    claim_C8_undo_legacy_and_noop.2 roomsC8 "r" "C" roomC8 (by decide) (by decide)⟩⟩

/-- Recognize a `drawing-history` message. -/
def isDrawingHistory : Msg → Bool
  | Msg.drawingHistory _ => true
  | _ => false

/-- Counterexample to C6 as stated: B successfully joins room "r" of
`roomsE`, whose history is empty (the room binding becomes `some "r"`), yet
no `drawing-history` message at all is emitted — the handler sends it only
when the log is non-empty. -/
theorem claim_C6_counterexample :
    (joinHandler roomsE "B" none dJoin 3).2.1 = some "r" ∧
    ((joinHandler roomsE "B" none dJoin 3).2.2.filter
      (fun em => isDrawingHistory em.2)) = [] := by decide

/-- Claim C6 amended: a participant who successfully joins receives a
`drawing-history` message with the room's log exactly when that log is
non-empty at join time; a participant joining a room with an empty history
receives no `drawing-history` message. -/
theorem claim_C6_join_history (rooms : Rooms) (sid : String)
    (srid : Option String) (d : JoinData) (now : Nat) (room : Room)
    (hroom : mapGet (if d.isHost then
        createRoom rooms d.roomId d.roomName d.capacity now else rooms)
      d.roomId = some room)
    (hcap : room.users.length < room.capacity) :
    (room.drawingHistory ≠ [] →
      (Target.sender, Msg.drawingHistory room.drawingHistory) ∈
        (joinHandler rooms sid srid d now).2.2) ∧
    (room.drawingHistory = [] →
      (joinHandler rooms sid srid d now).2.2.filter
        (fun em => isDrawingHistory em.2) = []) := by
  rw [joinHandler]
  simp only [hroom]
  rw [if_neg (Nat.not_le.mpr hcap)]
  constructor
  · intro hne
    have hlen : room.drawingHistory.length > 0 :=
      List.length_pos.mpr hne
    rw [if_pos hlen]
    simp
  · intro he
    rw [he]
    simp [isDrawingHistory]

/-- Witness for the amended C6: B joins `roomsW`, whose history holds `eA`,
and the emitted messages include `drawing-history [eA]`. -/
theorem claim_C6_witness :
    mapGet (if dJoin.isHost then
        createRoom roomsW dJoin.roomId dJoin.roomName dJoin.capacity 3
      else roomsW) dJoin.roomId = some roomW ∧
    roomW.users.length < roomW.capacity ∧
    ((roomW.drawingHistory ≠ [] →
      (Target.sender, Msg.drawingHistory roomW.drawingHistory) ∈
        (joinHandler roomsW "B" none dJoin 3).2.2) ∧
     (roomW.drawingHistory = [] →
      (joinHandler roomsW "B" none dJoin 3).2.2.filter
        (fun em => isDrawingHistory em.2) = [])) :=
  ⟨by decide, by decide,
   claim_C6_join_history roomsW "B" none dJoin 3 roomW (by decide) (by decide)⟩

/-- Iterate a state transformer n times. -/
def iterateOp (f : α → α) : Nat → α → α
  | 0, a => a
  | n + 1, a => iterateOp f n (f a)

/-- One `draw-line` append by A into room "r". -/
def stepLine (rs : Rooms) : Rooms := (drawLineHandler rs "A" (some "r") dLine 0).1

/-- A `draw-line` append grows the history by exactly one entry,
unconditionally. -/
theorem stepLine_length (rs : Rooms) (room : Room)
    (h : mapGet rs "r" = some room) :
    ∃ room', mapGet (stepLine rs) "r" = some room' ∧
      room'.drawingHistory.length = room.drawingHistory.length + 1 := by
  rw [stepLine, drawLineHandler]
  simp only [h]
  exact ⟨_, mapGet_mapSet_self _ _ _, by simp⟩

/-- n `draw-line` appends grow the history by exactly n entries. -/
theorem iterate_stepLine_length (n : Nat) (rs : Rooms) (room : Room)
    (h : mapGet rs "r" = some room) :
    ∃ room', mapGet (iterateOp stepLine n rs) "r" = some room' ∧
      room'.drawingHistory.length = room.drawingHistory.length + n := by
  induction n generalizing rs room with
  | zero => exact ⟨room, h, rfl⟩
  | succ n ih =>
      obtain ⟨room1, h1, hlen1⟩ := stepLine_length rs room h
      obtain ⟨room', h', hlen'⟩ := ih (stepLine rs) room1 h1
      exact ⟨room', h', by rw [hlen', hlen1]; omega⟩

/-- Counterexample to C3 as stated: 1001 consecutive `draw-line` appends
starting from the empty-history room `roomsE` leave the log at 1001 entries,
exceeding the 1000-entry cap — the cap is not enforced on the shape-append
(`draw-line`) path (nor on redo restores), only on brush/eraser `draw`. -/
theorem claim_C3_counterexample :
    (mapGet (iterateOp stepLine 1001 roomsE) "r").map
      (fun r => r.drawingHistory.length) = some 1001 := by
  obtain ⟨room', h', hlen⟩ := iterate_stepLine_length 1001 roomsE roomE (by decide)
  rw [h']
  have h0 : roomE.drawingHistory.length = 0 := by decide
  simp [hlen, h0]

/-- Claim C3 amended: the 1000-entry cap is enforced only by the brush/eraser
`draw` append — there, a log of at most 1000 entries stays at most 1000, and
an append to a log of exactly 1000 entries evicts exactly the oldest (first)
entry; the `draw-line` append performs no cap enforcement and always grows
the log by one. -/
theorem claim_C3_cap_draw_only :
    (∀ (rooms : Rooms) (rid sid : String) (room : Room) (d : DrawData) (now : Nat),
       mapGet rooms rid = some room →
       (d.tool == "brush" || d.tool == "eraser") = true →
       room.drawingHistory.length ≤ 1000 →
       ∃ room', mapGet (drawHandler rooms sid (some rid) d now).1 rid = some room' ∧
         room'.drawingHistory.length ≤ 1000 ∧
         (room.drawingHistory.length = 1000 →
           room'.drawingHistory = room.drawingHistory.tail ++ [mkStroke d sid now])) ∧
    (∀ (rooms : Rooms) (rid sid : String) (room : Room) (d : DrawData) (now : Nat),
       mapGet rooms rid = some room →
       ∃ room', mapGet (drawLineHandler rooms sid (some rid) d now).1 rid = some room' ∧
         room'.drawingHistory.length = room.drawingHistory.length + 1) := by
  constructor
  · intro rooms rid sid room d now hroom htool hle
    have hd : (drawHandler rooms sid (some rid) d now).1 =
        mapSet rooms rid { room with
          drawingHistory :=
            if (room.drawingHistory ++ [mkStroke d sid now]).length > 1000
            then (room.drawingHistory ++ [mkStroke d sid now]).tail
            else room.drawingHistory ++ [mkStroke d sid now],
          userRedoStacks := mapDelete room.userRedoStacks sid } := by
      rw [drawHandler]
      simp only [htool, hroom, if_true]
    rw [hd]
    refine ⟨_, mapGet_mapSet_self _ _ _, ?_, ?_⟩
    · by_cases hc : (room.drawingHistory ++ [mkStroke d sid now]).length > 1000
      · rw [if_pos hc]
        simp only [List.length_tail, List.length_append, List.length_cons,
          List.length_nil] at hc ⊢
        omega
      · rw [if_neg hc]
        simp only [List.length_append, List.length_cons, List.length_nil] at hc ⊢
        omega
    · intro h1000
      have hc : (room.drawingHistory ++ [mkStroke d sid now]).length > 1000 := by
        simp only [List.length_append, List.length_cons, List.length_nil, h1000]
        omega
      rw [if_pos hc]
      have hne : room.drawingHistory ≠ [] := by
        intro hnil
        rw [hnil] at h1000
        simp at h1000
      exact List.tail_append_of_ne_nil hne
  · intro rooms rid sid room d now hroom
    have hd : (drawLineHandler rooms sid (some rid) d now).1 =
        mapSet rooms rid { room with
          drawingHistory := room.drawingHistory ++ [mkStroke d sid now],
          userRedoStacks := mapDelete room.userRedoStacks sid } := by
      rw [drawLineHandler]
      simp only [hroom]
    rw [hd]
    exact ⟨_, mapGet_mapSet_self _ _ _, by simp⟩

/-- Witness for the amended C3 at concrete inputs: a brush append to the
one-entry log of `roomsW` keeps the log within the cap, and a `draw-line`
append to `roomsW` grows the log to two entries. -/
theorem claim_C3_witness :
    (mapGet roomsW "r" = some roomW ∧
     (dBrush.tool == "brush" || dBrush.tool == "eraser") = true ∧
     roomW.drawingHistory.length ≤ 1000 ∧
     (∃ room', mapGet (drawHandler roomsW "A" (some "r") dBrush 1).1 "r" = some room' ∧
       room'.drawingHistory.length ≤ 1000 ∧
       (roomW.drawingHistory.length = 1000 →
         room'.drawingHistory = roomW.drawingHistory.tail ++ [mkStroke dBrush "A" 1]))) ∧
    (mapGet roomsW "r" = some roomW ∧
     ∃ room', mapGet (drawLineHandler roomsW "A" (some "r") dLine 1).1 "r" = some room' ∧
       room'.drawingHistory.length = roomW.drawingHistory.length + 1) :=
  ⟨⟨by decide, by decide, by decide,
    claim_C3_cap_draw_only.1 roomsW "r" "A" roomW dBrush 1
      (by decide) (by decide) (by decide)⟩,
   ⟨by decide,
    claim_C3_cap_draw_only.2 roomsW "r" "A" roomW dLine 1 (by decide)⟩⟩

/-- A reachable state where author A has no log entry but a non-empty redo
stack (A drew `eA` and then undid it). -/
def roomC2 : Room := ⟨"r", "Room", 2, [("A", uA)], [], [("A", [[eA]])], 0⟩

/-- A registry holding `roomC2`. -/
def roomsC2 : Rooms := [("r", roomC2)]

/-- Counterexample to C2 as stated for ANY log state and ANY author: in
`roomsC2` author A has no entry in the (empty) log, so A's undo is a no-op,
but A's redo then restores a group undone earlier: the post-redo log has one
entry while the pre-undo log had none, so the two logs are not equal as
multisets. -/
theorem claim_C2_counterexample :
    (mapGet (redoHandler (undoHandler roomsC2 "A" (some "r")).1 "A" (some "r")).1
        "r").map (fun r => r.drawingHistory.length) = some 1 ∧
    (mapGet roomsC2 "r").map (fun r => r.drawingHistory.length) = some 0 := by
  decide

/-- Claim C2 amended: provided the author has at least one entry in the log
(so the undo actually removes something), undo immediately followed by redo
by that author yields a log that is equal as a multiset to the pre-undo log,
with the removed entries — a non-empty sublist of the pre-undo log, hence in
their original relative order — re-appended at the end of the log rather
than reinserted at their original positions. -/
theorem claim_C2_undo_redo_restores (rooms : Rooms) (rid sid : String)
    (room : Room) (e : Stroke)
    (hroom : mapGet rooms rid = some room)
    (hlast : lastBy room.drawingHistory sid = some e) :
    ∃ room' kept removed,
      mapGet (redoHandler (undoHandler rooms sid (some rid)).1 sid (some rid)).1 rid
        = some room' ∧
      (room'.drawingHistory : Multiset Stroke)
        = (room.drawingHistory : Multiset Stroke) ∧
      removed ≠ [] ∧
      removed.Sublist room.drawingHistory ∧
      room'.drawingHistory = kept ++ removed := by
  obtain ⟨hmem, huid⟩ := lastBy_mem room.drawingHistory sid e hlast
  cases hn : normId e.strokeId with
  | some g =>
      have hbind : (lastBy room.drawingHistory sid).bind (fun x => normId x.strokeId)
          = some g := by rw [hlast]; simpa using hn
      have heid : e.strokeId = some g := normId_eq_some _ _ hn
      have hp : (fun s => s.userId == sid && s.strokeId == some g) e = true := by
        simp [huid, heid]
      have hpos : 0 < (room.drawingHistory.filter
          (fun s => s.userId == sid && s.strokeId == some g)).length :=
        List.length_pos.mpr (List.ne_nil_of_mem (List.mem_filter.mpr ⟨hmem, hp⟩))
      have hu : (undoHandler rooms sid (some rid)).1 =
          mapSet rooms rid { room with
            drawingHistory := room.drawingHistory.filter
              (fun s => !(s.userId == sid && s.strokeId == some g)),
            userRedoStacks := pushRedo room.userRedoStacks sid
              (room.drawingHistory.filter
                (fun s => s.userId == sid && s.strokeId == some g)) } := by
        rw [undoHandler]
        simp only [hroom, hbind, removeMatching_eq_filter]
        rw [if_pos hpos]
      rw [hu]
      have hr : (redoHandler (mapSet rooms rid { room with
            drawingHistory := room.drawingHistory.filter
              (fun s => !(s.userId == sid && s.strokeId == some g)),
            userRedoStacks := pushRedo room.userRedoStacks sid
              (room.drawingHistory.filter
                (fun s => s.userId == sid && s.strokeId == some g)) })
            sid (some rid)).1 =
          mapSet (mapSet rooms rid { room with
            drawingHistory := room.drawingHistory.filter
              (fun s => !(s.userId == sid && s.strokeId == some g)),
            userRedoStacks := pushRedo room.userRedoStacks sid
              (room.drawingHistory.filter
                (fun s => s.userId == sid && s.strokeId == some g)) }) rid
            { room with
              drawingHistory := room.drawingHistory.filter
                  (fun s => !(s.userId == sid && s.strokeId == some g)) ++
                room.drawingHistory.filter
                  (fun s => s.userId == sid && s.strokeId == some g),
              userRedoStacks := mapSet (pushRedo room.userRedoStacks sid
                (room.drawingHistory.filter
                  (fun s => s.userId == sid && s.strokeId == some g))) sid
                ((mapGet room.userRedoStacks sid).getD []) } := by
        rw [redoHandler]
        simp only [mapGet_mapSet_self, mapGet_pushRedo_self, List.getLast?_concat,
          List.dropLast_concat]
        rw [if_pos hpos]
      rw [hr]
      refine ⟨_, _, _, mapGet_mapSet_self _ _ _, ?_, ?_,
        List.filter_sublist _, rfl⟩
      · exact Multiset.coe_eq_coe.mpr
          (List.perm_append_comm.trans (List.filter_append_perm _ _))
      · exact List.length_pos.mp hpos
  | none =>
      obtain ⟨l1, l2, hsplit, hafter, hrem⟩ :=
        lastBy_split room.drawingHistory sid e hlast
      have hu : (undoHandler rooms sid (some rid)).1 =
          mapSet rooms rid { room with
            drawingHistory := removeLastBy room.drawingHistory sid,
            userRedoStacks := pushRedo room.userRedoStacks sid [e] } := by
        rw [undoHandler]
        simp only [hroom, hlast, Option.some_bind, hn]
      rw [hu]
      have hr : (redoHandler (mapSet rooms rid { room with
            drawingHistory := removeLastBy room.drawingHistory sid,
            userRedoStacks := pushRedo room.userRedoStacks sid [e] })
            sid (some rid)).1 =
          mapSet (mapSet rooms rid { room with
            drawingHistory := removeLastBy room.drawingHistory sid,
            userRedoStacks := pushRedo room.userRedoStacks sid [e] }) rid
            { room with
              drawingHistory := removeLastBy room.drawingHistory sid ++ [e],
              userRedoStacks := mapSet (pushRedo room.userRedoStacks sid [e]) sid
                ((mapGet room.userRedoStacks sid).getD []) } := by
        rw [redoHandler]
        simp only [mapGet_mapSet_self, mapGet_pushRedo_self, List.getLast?_concat,
          List.dropLast_concat]
        rw [if_pos (by simp : ([e] : List Stroke).length > 0)]
      rw [hr]
      refine ⟨_, removeLastBy room.drawingHistory sid, [e],
        mapGet_mapSet_self _ _ _, ?_, by simp,
        List.singleton_sublist.mpr hmem, rfl⟩
      apply Multiset.coe_eq_coe.mpr
      rw [hrem, hsplit, List.append_assoc]
      exact List.Perm.append_left l1 (List.perm_append_singleton e l2)

/-- Witness for the amended C2: in `roomsC1`, A's undo removes the two g1
strokes and an immediate redo re-appends them, restoring the log as a
multiset. -/
theorem claim_C2_witness :
    mapGet roomsC1 "r" = some roomC1 ∧
    lastBy roomC1.drawingHistory "A" = some eA2 ∧
    (∃ room' kept removed,
      mapGet (redoHandler (undoHandler roomsC1 "A" (some "r")).1 "A" (some "r")).1
        "r" = some room' ∧
      (room'.drawingHistory : Multiset Stroke)
        = (roomC1.drawingHistory : Multiset Stroke) ∧
      removed ≠ [] ∧
      removed.Sublist roomC1.drawingHistory ∧
      room'.drawingHistory = kept ++ removed) :=
  ⟨by decide, by decide,
   claim_C2_undo_redo_restores roomsC1 "r" "A" roomC1 eA2 (by decide) (by decide)⟩

end Canvas
